import Mathlib

/-!
Shallow embedding of the task-progress aggregation engine of `wtenv`
(`src/commands/claude_task.rs`): the event type, the per-session task
aggregation (`ClaudeTask::new`, `ClaudeTask::add_event`,
`ClaudeTask::has_started`, `ClaudeTask::is_in_worktree` fallback branch),
the manager (`TaskManager::add_event`, `TaskManager::load_session_file`,
`TaskManager::refresh`, `TaskManager::all_tasks`).

Modelling conventions:
- `DateTime<Utc>` and `SystemTime` are modelled as `Nat` instants (both are
  totally ordered instants; only comparison and equality are used).
- Rust `HashMap` is modelled as an association list carrying an explicit
  iteration order; `HashMap::remove`, `::insert`, `entry().and_modify.or_insert`
  are the corresponding association-list operations.  The iteration order of
  a Rust `HashMap` is an artifact of its random seed and insertion history,
  not a function of its contents, which the list order makes explicit.
- File paths inside the progress directory are identified by their stem
  (the `.jsonl` extension is constant, so stems and paths are in bijection).
- A line of a session file is modelled by what `serde_json::from_str::<TaskEvent>`
  does with it: blank (skipped before decoding), invalid (decode error), or a
  decoded event.  The JSON decoding itself is external (serde).
-/

namespace WtEnv

/-- `TaskStatus` from `claude_task.rs`: in_progress / stop / session_ended / error. -/
inductive TaskStatus where
  | inProgress
  | stop
  | sessionEnded
  | error
deriving DecidableEq

/-- `TaskEvent` from `claude_task.rs`: one decoded line of a session log.
Timestamps are modelled as `Nat` instants. -/
structure TaskEvent where
  timestamp : Nat
  session_id : String
  event : String
  tool : Option String
  status : Option TaskStatus
  message : String
  cwd : String
deriving DecidableEq

/-- `ClaudeTask` from `claude_task.rs`: aggregated view of one session. -/
structure ClaudeTask where
  session_id : String
  start_time : Nat
  last_update : Nat
  status : TaskStatus
  events : List TaskEvent
  worktree_path : String
  last_message : String
deriving DecidableEq

/-- `ClaudeTask::new`: build a task from its first event.  Status defaults to
`Stop` when the event carries none; the message is stored unconditionally. -/
def ClaudeTask.new (event : TaskEvent) : ClaudeTask :=
  { session_id := event.session_id
    start_time := event.timestamp
    last_update := event.timestamp
    status := event.status.getD TaskStatus.stop
    events := [event]
    worktree_path := event.cwd
    last_message := event.message }

/-- `ClaudeTask::add_event`: merge one further event into a task.  Status is
updated only when the event carries one; the working directory is always
overwritten; the last message is updated only when the event's message is
non-empty and not the "Unknown event" sentinel; the event is appended. -/
def ClaudeTask.add_event (t : ClaudeTask) (event : TaskEvent) : ClaudeTask :=
  { t with
    last_update := event.timestamp
    status := event.status.getD t.status
    worktree_path := event.cwd
    last_message :=
      if event.message ≠ "" ∧ event.message ≠ "Unknown event" then event.message
      else t.last_message
    events := t.events ++ [event] }

/-- `ClaudeTask::has_started`: more than one event, or a single event that is
not `SessionStart`. -/
def ClaudeTask.has_started (t : ClaudeTask) : Bool :=
  decide (t.events.length > 1) ||
    (match t.events.head? with
     | some e => decide (e.event ≠ "SessionStart")
     | none => false)

/-- Split a character list on `/` separators (the pieces, in order,
separators dropped; empty pieces kept for the filter below). -/
def splitSlashAux : List Char → List Char → List (List Char)
  | [], acc => [acc.reverse]
  | c :: rest, acc =>
      if c = '/' then acc.reverse :: splitSlashAux rest []
      else splitSlashAux rest (c :: acc)

/-- `std::path::Path::components` on an absolute-or-relative POSIX path string:
a leading `/` becomes the root component, empty pieces and non-leading `.`
pieces are dropped while a leading `.` is kept (the normalisation
`Path::components` performs), every other piece is a normal component.
Components are represented as character lists. -/
def pathComponents (p : String) : List (List Char) :=
  let parts := (splitSlashAux p.toList []).filter (fun s => s ≠ [] ∧ s ≠ ['.'])
  match p.toList with
  | '/' :: _ => ['/'] :: parts
  | '.' :: '/' :: _ => ['.'] :: parts
  | ['.'] => [['.']]
  | _ => parts

/-- The fallback branch of `ClaudeTask::is_in_worktree` (taken when
canonicalization is unavailable for either path): component-wise comparison —
the task's path must have at least as many components as the candidate
location and every corresponding leading component must be equal. -/
def ClaudeTask.is_in_worktree_fallback (t : ClaudeTask) (worktree_path : String) : Bool :=
  if (pathComponents t.worktree_path).length ≥ (pathComponents worktree_path).length then
    ((pathComponents t.worktree_path).zip (pathComponents worktree_path)).all
      (fun p => decide (p.1 = p.2))
  else
    false

/-- Association-list lookup (models `HashMap::get`). -/
def alookup {α : Type} (k : String) : List (String × α) → Option α
  | [] => none
  | p :: rest => if p.1 = k then some p.2 else alookup k rest

/-- Association-list insert-or-update (models `HashMap::insert`). -/
def aupdate {α : Type} (k : String) (v : α) : List (String × α) → List (String × α)
  | [] => [(k, v)]
  | p :: rest => if p.1 = k then (k, v) :: rest else p :: aupdate k v rest

/-- Remove the entry for a key (models `HashMap::remove`); on the key-nodup
association lists reachable by the manager's operations this removes the one
entry with that key. -/
def aerase {α : Type} (k : String) (l : List (String × α)) : List (String × α) :=
  l.filter (fun p => decide (p.1 ≠ k))

/-- Apply `ClaudeTask::add_event` to every entry with the given key
(models `entry().and_modify(...)` on the one entry holding the key). -/
def updateTask (l : List (String × ClaudeTask)) (k : String) (e : TaskEvent) :
    List (String × ClaudeTask) :=
  l.map (fun p => if p.1 = k then (p.1, p.2.add_event e) else p)

/-- `TaskManager` from `claude_task.rs`: session-id-keyed tasks plus the
mtime cache, both as association lists in iteration order. -/
structure TaskManager where
  tasks : List (String × ClaudeTask)
  file_mtimes : List (String × Nat)
deriving DecidableEq

/-- `TaskManager::new`. -/
def TaskManager.mkEmpty : TaskManager := { tasks := [], file_mtimes := [] }

/-- `TaskManager::add_event`: route an event to the task keyed by the event's
own `session_id`, creating the task from the event if absent
(`entry().and_modify(add_event).or_insert_with(new)`). -/
def TaskManager.add_event (m : TaskManager) (event : TaskEvent) : TaskManager :=
  match alookup event.session_id m.tasks with
  | some _ => { m with tasks := updateTask m.tasks event.session_id event }
  | none => { m with tasks := m.tasks ++ [(event.session_id, ClaudeTask.new event)] }

/-- One line of a session file, as seen by the loader: blank after trimming,
a serde decode failure, or a decoded `TaskEvent`. -/
inductive LogLine where
  | blank
  | invalid
  | valid (e : TaskEvent)
deriving DecidableEq

/-- The loop body of `TaskManager::load_session_file`: skip blank lines, add
each decoded event, count decode failures, keep going after every failure.
Returns the manager with the counts of valid events and parse errors. -/
def loadLines (m : TaskManager) (lines : List LogLine) (valid errs : Nat) :
    TaskManager × Nat × Nat :=
  match lines with
  | [] => (m, valid, errs)
  | LogLine.blank :: rest => loadLines m rest valid errs
  | LogLine.valid e :: rest => loadLines (m.add_event e) rest (valid + 1) errs
  | LogLine.invalid :: rest => loadLines m rest valid (errs + 1)

/-- `TaskManager::load_session_file` on already-read file contents (the
counters start at zero; the function itself always succeeds once the file
contents are in hand). -/
def TaskManager.load_session_file (m : TaskManager) (lines : List LogLine) :
    TaskManager × Nat × Nat :=
  loadLines m lines 0 0

/-- `TaskManager::load_session_file` including the initial
`fs::read_to_string`, whose failure is the only error path of the function
(`Result<()>` in the source; the counts are carried for the theorems). -/
def readAndLoad (m : TaskManager) (content : Option (List LogLine)) :
    Except String (TaskManager × Nat × Nat) :=
  match content with
  | none => Except.error "Failed to read file"
  | some lines => Except.ok (m.load_session_file lines)

/-- The decoded events of a file's lines, in order. -/
def eventsOf (lines : List LogLine) : List TaskEvent :=
  lines.filterMap (fun l => match l with | LogLine.valid e => some e | _ => none)

/-- Number of lines that fail to decode. -/
def countInvalid (lines : List LogLine) : Nat :=
  (lines.filter (fun l => decide (l = LogLine.invalid))).length

/-- One `.jsonl` file of the progress directory as the refresh pass observes
it: its stem (= session identifier by naming convention), the result of
`fs::metadata(..).modified()` (`none` = metadata error), and the result of
`fs::read_to_string` (`none` = read error). -/
structure SessionFile where
  stem : String
  mtime : Option Nat
  content : Option (List LogLine)
deriving DecidableEq

/-- The reload decision of `TaskManager::refresh` for one file: metadata
errors skip the file; otherwise reload exactly when the cached mtime is
absent or strictly smaller than the current one. -/
def TaskManager.shouldReload (m : TaskManager) (f : SessionFile) : Bool :=
  match f.mtime with
  | none => false
  | some current =>
      match alookup f.stem m.file_mtimes with
      | some last => decide (last < current)
      | none => true

/-- The task map after a reload of one file: the task keyed by the file's
stem is removed first; then, if the read succeeded, `load_session_file` is
run on the file's current contents (a read failure is only warned about and
leaves the tasks at the removal state).  `load_session_file` never touches
the mtime cache, so only the task map is produced here. -/
def TaskManager.reloadedTasks (m : TaskManager) (f : SessionFile) :
    List (String × ClaudeTask) :=
  match f.content with
  | none => aerase f.stem m.tasks
  | some lines =>
      ((TaskManager.load_session_file { m with tasks := aerase f.stem m.tasks } lines).1).tasks

/-- The per-file body of `TaskManager::refresh`: on a metadata error,
continue; otherwise, if the file should reload, remove the task keyed by the
file's stem, run `load_session_file` (a read failure is only warned about),
and insert the current mtime into the cache unconditionally — also when the
read failed. -/
def TaskManager.refreshFile (m : TaskManager) (f : SessionFile) : TaskManager :=
  match f.mtime with
  | none => m
  | some current =>
      if m.shouldReload f then
        { tasks := m.reloadedTasks f,
          file_mtimes := aupdate f.stem current m.file_mtimes }
      else m

/-- `TaskManager::refresh` over the directory's matching files in scan order. -/
def TaskManager.refresh (m : TaskManager) (files : List SessionFile) : TaskManager :=
  files.foldl TaskManager.refreshFile m

/-- The sort order of `TaskManager::all_tasks`: `a` precedes `b` when
`b.last_update ≤ a.last_update` (the comparator `b.last_update.cmp(&a.last_update)`
orders last-update descending). -/
def lastUpdateGe (a b : ClaudeTask) : Prop := b.last_update ≤ a.last_update

instance : DecidableRel lastUpdateGe := fun a b =>
  inferInstanceAs (Decidable (b.last_update ≤ a.last_update))

instance : IsTotal ClaudeTask lastUpdateGe :=
  ⟨fun a b => Nat.le_total b.last_update a.last_update⟩

instance : IsTrans ClaudeTask lastUpdateGe :=
  ⟨fun _ _ _ h1 h2 => Nat.le_trans h2 h1⟩

/-- `TaskManager::all_tasks`: the task values in iteration order, stably
sorted by last-update descending.  Rust's `sort_by` is a stable sort; a
stable sort by a total preorder has a unique result, so the stable
`insertionSort` gives the same list. -/
def TaskManager.all_tasks (m : TaskManager) : List ClaudeTask :=
  List.insertionSort lastUpdateGe (m.tasks.map Prod.snd)

/-- A task as built by ingesting a first event and then a list of further
events (what the manager does to the events of one session). -/
def buildTask (e : TaskEvent) (es : List TaskEvent) : ClaudeTask :=
  es.foldl ClaudeTask.add_event (ClaudeTask.new e)

/-- One aggregation step on an optional task: create from the event if
absent, merge otherwise — the per-key view of `TaskManager::add_event`. -/
def applyEvent : Option ClaudeTask → TaskEvent → Option ClaudeTask
  | some t, e => some (t.add_event e)
  | none, e => some (ClaudeTask.new e)

/-- The message of the most recent event whose message is non-empty and not
the "Unknown event" sentinel, if any. -/
def lastMeaningfulMsg (es : List TaskEvent) : Option String :=
  ((es.map (fun e => e.message)).filter
    (fun s => decide (s ≠ "" ∧ s ≠ "Unknown event"))).getLast?

/-- Invariant: every task held by the manager has a non-empty event list. -/
def TaskManager.eventsNonempty (m : TaskManager) : Prop :=
  ∀ p ∈ m.tasks, p.2.events ≠ []

/-! Concrete fixtures used by the closed statements below, mirroring the
events the repository's own tests construct. -/

/-- A session-start event carrying no status. -/
def evStart : TaskEvent :=
  ⟨0, "s1", "SessionStart", none, none, "Session started", "/tmp"⟩

/-- A stop event carrying status `stop`. -/
def evStop : TaskEvent :=
  ⟨1, "s1", "Stop", none, some TaskStatus.stop, "Waiting", "/tmp"⟩

/-- A prompt event carrying status `in_progress`. -/
def evPrompt : TaskEvent :=
  ⟨0, "s1", "UserPromptSubmit", none, some TaskStatus.inProgress, "Processing", "/tmp"⟩

/-- A notification event with no status and the "Unknown event" sentinel
message. -/
def evNote : TaskEvent :=
  ⟨2, "s1", "Notification", none, none, "Unknown event", "/tmp"⟩

/-- A task whose working directory is `/home/user/feature`. -/
def featureTask : ClaudeTask :=
  ClaudeTask.new
    ⟨0, "test", "SessionStart", none, some TaskStatus.inProgress, "Test", "/home/user/feature"⟩

/-- Line 1 of the five-line file of the malformed-line scenario. -/
def f5e1 : TaskEvent :=
  ⟨100, "test", "SessionStart", none, some TaskStatus.inProgress, "Valid", "/tmp"⟩

/-- Line 3 of the five-line file. -/
def f5e3 : TaskEvent :=
  ⟨101, "test", "Stop", none, some TaskStatus.stop, "Valid", "/tmp"⟩

/-- Line 5 of the five-line file. -/
def f5e5 : TaskEvent :=
  ⟨102, "test", "SessionEnd", none, some TaskStatus.sessionEnded, "Valid", "/tmp"⟩

/-- A five-line session file whose lines 2 and 4 fail to decode. -/
def fiveLines : List LogLine :=
  [LogLine.valid f5e1, LogLine.invalid, LogLine.valid f5e3, LogLine.invalid, LogLine.valid f5e5]

/-- A session file whose metadata read succeeds but whose content read fails. -/
def f3fail : SessionFile := ⟨"s", some 5, none⟩

/-- A session file whose current mtime (3) is older than a cached value. -/
def staleFile : SessionFile := ⟨"s", some 3, some []⟩

/-- An event for session `s`. -/
def evS : TaskEvent := ⟨4, "s", "Stop", none, some TaskStatus.stop, "m", "/w"⟩

/-- A manager that has session `s` cached with mtime 5. -/
def cmStale : TaskManager :=
  { tasks := [("s", ClaudeTask.new evS)], file_mtimes := [("s", 5)] }

/-- An event for session `a` with last-update 10. -/
def evA : TaskEvent := ⟨10, "a", "Stop", none, some TaskStatus.stop, "m", "/w"⟩

/-- An event for session `b`, same timestamp as `evA`. -/
def evB : TaskEvent := ⟨10, "b", "Stop", none, some TaskStatus.stop, "m", "/w"⟩

/-- Two tasks with tied last-update, in one iteration order... -/
def cmLeft : TaskManager :=
  { tasks := [("a", ClaudeTask.new evA), ("b", ClaudeTask.new evB)], file_mtimes := [] }

/-- ...and the same two tasks in the other iteration order. -/
def cmRight : TaskManager :=
  { tasks := [("b", ClaudeTask.new evB), ("a", ClaudeTask.new evA)], file_mtimes := [] }

/-- Same tasks as `cmLeft`, different mtime cache. -/
def cmLeftMt : TaskManager := { tasks := cmLeft.tasks, file_mtimes := [("x", 1)] }

/-- A manager holding only session `s1`. -/
def cmOther : TaskManager :=
  { tasks := [("s1", ClaudeTask.new evStart)], file_mtimes := [] }

/-- A file with stem `other` whose single decoded event belongs to session
`s1` instead. -/
def fOther : SessionFile := ⟨"other", some 1, some [LogLine.valid evStop]⟩

/-! Helper lemmas about the embedding. -/

theorem events_foldl_add_event (t : ClaudeTask) (es : List TaskEvent) :
    (es.foldl ClaudeTask.add_event t).events = t.events ++ es := by
  induction es generalizing t with
  | nil => simp
  | cons x xs ih => simp [ih, ClaudeTask.add_event]

theorem buildTask_events (e : TaskEvent) (es : List TaskEvent) :
    (buildTask e es).events = e :: es := by
  simp [buildTask, events_foldl_add_event, ClaudeTask.new]

/-- C1: Status is overwritten exactly by events that carry one.  The merge
rule of `ClaudeTask::add_event` takes the event's status when present and
keeps the task's status otherwise; in particular a first event without
status followed by one with status `s` yields `s`, and a first event with
status `s` followed by one without yields `s`. -/
theorem C1_status_merge :
    (∀ (t : ClaudeTask) (e : TaskEvent) (s : TaskStatus),
        e.status = some s → (t.add_event e).status = s)
  ∧ (∀ (t : ClaudeTask) (e : TaskEvent),
        e.status = none → (t.add_event e).status = t.status)
  ∧ (∀ (e1 e2 : TaskEvent) (s : TaskStatus), e1.status = none → e2.status = some s →
        ((ClaudeTask.new e1).add_event e2).status = s)
  ∧ (∀ (e1 e2 : TaskEvent) (s : TaskStatus), e1.status = some s → e2.status = none →
        ((ClaudeTask.new e1).add_event e2).status = s) := by
  refine ⟨?_, ?_, ?_, ?_⟩
  · intro t e s h
    simp [ClaudeTask.add_event, h]
  · intro t e h
    simp [ClaudeTask.add_event, h]
  · intro e1 e2 s h1 h2
    simp [ClaudeTask.new, ClaudeTask.add_event, h1, h2]
  · intro e1 e2 s h1 h2
    simp [ClaudeTask.new, ClaudeTask.add_event, h1, h2]

/-- Witness for C1 at concrete events: a no-status session start followed by
a `stop` event yields status `stop`; an `in_progress` event followed by a
no-status notification keeps `in_progress`. -/
theorem C1_status_merge_witness :
    ((ClaudeTask.new evStart).add_event evStop).status = TaskStatus.stop
    ∧ ((ClaudeTask.new evPrompt).add_event evNote).status = TaskStatus.inProgress :=
  ⟨C1_status_merge.2.2.1 evStart evStop TaskStatus.stop rfl rfl,
   C1_status_merge.2.2.2 evPrompt evNote TaskStatus.inProgress rfl rfl⟩

/-- C2: When the ingested events contain at least one message that is
non-empty and not the "Unknown event" sentinel, the task's last message is
the most recent such message — with no condition on the first event, so this
holds also when the first event's message is empty or the sentinel. -/
theorem C2_last_meaningful (e : TaskEvent) (es : List TaskEvent) (msg : String)
    (h : lastMeaningfulMsg (e :: es) = some msg) :
    (buildTask e es).last_message = msg := by
  induction es using List.reverseRecOn with
  | nil =>
      by_cases hm : e.message ≠ "" ∧ e.message ≠ "Unknown event"
      · simp [lastMeaningfulMsg, hm] at h
        simpa [buildTask, ClaudeTask.new] using h
      · simp [lastMeaningfulMsg, hm] at h
  | append_singleton xs x ih =>
      by_cases hm : x.message ≠ "" ∧ x.message ≠ "Unknown event"
      · have hmsg : msg = x.message := by
          simp [lastMeaningfulMsg, List.filter_append, hm] at h
          exact h.symm
        simp [buildTask, List.foldl_append, ClaudeTask.add_event, hm, hmsg]
      · have h' : lastMeaningfulMsg (e :: xs) = some msg := by
          simpa [lastMeaningfulMsg, List.filter_append, hm] using h
        simpa [buildTask, List.foldl_append, ClaudeTask.add_event, hm] using ih h'

theorem alookup_append_of_none {α : Type} (k : String) (l1 l2 : List (String × α))
    (h : alookup k l1 = none) : alookup k (l1 ++ l2) = alookup k l2 := by
  induction l1 with
  | nil => rfl
  | cons p rest ih =>
      by_cases hp : p.1 = k
      · simp [alookup, hp] at h
      · simp only [alookup, hp, if_false, List.cons_append] at h ⊢
        exact ih h

theorem alookup_append_of_some {α : Type} (k : String) (l1 l2 : List (String × α)) (v : α)
    (h : alookup k l1 = some v) : alookup k (l1 ++ l2) = some v := by
  induction l1 with
  | nil => simp [alookup] at h
  | cons p rest ih =>
      by_cases hp : p.1 = k
      · simp only [alookup, hp, if_true, List.cons_append] at h ⊢
        exact h
      · simp only [alookup, hp, if_false, List.cons_append] at h ⊢
        exact ih h

theorem alookup_updateTask_self (l : List (String × ClaudeTask)) (k : String) (e : TaskEvent) :
    alookup k (updateTask l k e) = (alookup k l).map (fun t => t.add_event e) := by
  induction l with
  | nil => rfl
  | cons p rest ih =>
      by_cases hp : p.1 = k
      · simp [updateTask, alookup, hp]
      · simpa [updateTask, alookup, hp] using ih

theorem alookup_updateTask_ne (l : List (String × ClaudeTask)) (k k' : String) (e : TaskEvent)
    (h : k' ≠ k) : alookup k' (updateTask l k e) = alookup k' l := by
  induction l with
  | nil => rfl
  | cons p rest ih =>
      by_cases hp' : p.1 = k'
      · have hp : ¬ p.1 = k := fun hh => h (hp'.symm.trans hh)
        simp [updateTask, alookup, hp, hp', h]
      · by_cases hp : p.1 = k
        · simp only [updateTask, List.map_cons, if_pos hp, alookup, if_neg hp']
          simpa [updateTask] using ih
        · simp only [updateTask, List.map_cons, if_neg hp, alookup, if_neg hp']
          simpa [updateTask] using ih

theorem alookup_aerase_self {α : Type} (k : String) (l : List (String × α)) :
    alookup k (aerase k l) = none := by
  induction l with
  | nil => rfl
  | cons p rest ih =>
      by_cases hp : p.1 = k
      · simpa [aerase, hp] using ih
      · simpa [aerase, List.filter_cons, hp, alookup] using ih

theorem alookup_aerase_ne {α : Type} (k k' : String) (l : List (String × α)) (h : k' ≠ k) :
    alookup k' (aerase k l) = alookup k' l := by
  induction l with
  | nil => rfl
  | cons p rest ih =>
      simp only [aerase, List.filter_cons]
      by_cases hp : p.1 = k
      · have hp' : ¬ p.1 = k' := fun hh => h (hh.symm.trans hp)
        rw [decide_eq_false (fun hn => hn hp), if_neg (by simp)]
        rw [show alookup k' (p :: rest) = alookup k' rest from by simp [alookup, hp']]
        simpa [aerase] using ih
      · rw [decide_eq_true hp, if_pos rfl]
        by_cases hp' : p.1 = k'
        · simp [alookup, hp']
        · simp only [alookup, if_neg hp']
          simpa [aerase] using ih

theorem alookup_aupdate_self {α : Type} (k : String) (v : α) (l : List (String × α)) :
    alookup k (aupdate k v l) = some v := by
  induction l with
  | nil => simp [aupdate, alookup]
  | cons p rest ih =>
      by_cases hp : p.1 = k
      · simp [aupdate, alookup, hp]
      · simpa [aupdate, alookup, hp] using ih

theorem alookup_aupdate_ne {α : Type} (k k' : String) (v : α) (l : List (String × α))
    (h : k' ≠ k) : alookup k' (aupdate k v l) = alookup k' l := by
  induction l with
  | nil =>
      have hk : ¬ k = k' := fun hh => h hh.symm
      simp [aupdate, alookup, hk]
  | cons p rest ih =>
      by_cases hp : p.1 = k
      · have hk : ¬ k = k' := fun hh => h hh.symm
        have hp' : ¬ p.1 = k' := fun hh => h (hh.symm.trans hp)
        simp [aupdate, alookup, hp, hk, hp']
      · by_cases hp' : p.1 = k'
        · simp [aupdate, alookup, hp, hp', h]
        · simpa [aupdate, alookup, hp, hp'] using ih

/-- The per-key effect of `TaskManager::add_event`: the task keyed by the
event's own session id is created or merged; every other key is untouched. -/
theorem alookup_add_event_tasks (m : TaskManager) (e : TaskEvent) (k : String) :
    alookup k (m.add_event e).tasks =
      if e.session_id = k then applyEvent (alookup k m.tasks) e else alookup k m.tasks := by
  cases hl : alookup e.session_id m.tasks with
  | some t =>
      by_cases hk : e.session_id = k
      · subst hk
        simp [TaskManager.add_event, hl, alookup_updateTask_self, applyEvent]
      · have hk' : k ≠ e.session_id := fun hh => hk hh.symm
        simp [TaskManager.add_event, hl, hk, alookup_updateTask_ne _ _ _ _ hk']
  | none =>
      by_cases hk : e.session_id = k
      · subst hk
        simp [TaskManager.add_event, hl,
          alookup_append_of_none e.session_id m.tasks _ hl, alookup, applyEvent]
      · have hk' : k ≠ e.session_id := fun hh => hk hh.symm
        cases hlk : alookup k m.tasks with
        | some v =>
            simp [TaskManager.add_event, hl, hk, alookup_append_of_some k m.tasks _ v hlk, hlk]
        | none =>
            simp [TaskManager.add_event, hl, hk,
              alookup_append_of_none k m.tasks _ hlk, alookup, hk', hlk]

/-- Projecting a fold of `TaskManager::add_event` to one key: the key's task
is the fold of the per-key step over exactly the events carrying that
session id, in order. -/
theorem alookup_foldl_add_event (es : List TaskEvent) (m : TaskManager) (k : String) :
    alookup k (es.foldl TaskManager.add_event m).tasks =
      (es.filter (fun e => decide (e.session_id = k))).foldl applyEvent (alookup k m.tasks) := by
  induction es generalizing m with
  | nil => rfl
  | cons e rest ih =>
      by_cases h : e.session_id = k <;>
        simp [List.filter_cons, h, ih, alookup_add_event_tasks]

theorem foldl_applyEvent_some (t : ClaudeTask) (es : List TaskEvent) :
    es.foldl applyEvent (some t) = some (es.foldl ClaudeTask.add_event t) := by
  induction es generalizing t with
  | nil => rfl
  | cons e rest ih => simpa [applyEvent] using ih (t.add_event e)

/-- The loader's loop is the fold of `TaskManager::add_event` over the lines
that decode, with the counters tallying decoded events and decode failures. -/
theorem loadLines_spec (lines : List LogLine) (m : TaskManager) (v er : Nat) :
    loadLines m lines v er =
      ((eventsOf lines).foldl TaskManager.add_event m,
       v + (eventsOf lines).length, er + countInvalid lines) := by
  induction lines generalizing m v er with
  | nil => simp [loadLines, eventsOf, countInvalid]
  | cons l rest ih =>
      cases l with
      | blank =>
          simpa [loadLines, eventsOf, countInvalid, List.filter_cons] using ih m v er
      | invalid =>
          rw [loadLines, ih m v (er + 1)]
          have h1 : eventsOf (LogLine.invalid :: rest) = eventsOf rest := by simp [eventsOf]
          have h2 : countInvalid (LogLine.invalid :: rest) = countInvalid rest + 1 := by
            simp [countInvalid, List.filter_cons]
          rw [h1, h2]
          simp only [Prod.mk.injEq]
          refine ⟨?_, ?_, ?_⟩ <;> first | trivial | omega
      | valid e =>
          rw [loadLines, ih (m.add_event e) (v + 1) er]
          have h1 : eventsOf (LogLine.valid e :: rest) = e :: eventsOf rest := by simp [eventsOf]
          have h2 : countInvalid (LogLine.valid e :: rest) = countInvalid rest := by
            simp [countInvalid, List.filter_cons]
          rw [h1, h2]
          simp only [List.foldl_cons, List.length_cons, Prod.mk.injEq]
          refine ⟨?_, ?_, ?_⟩ <;> first | trivial | omega

/-- Witness for C2: the first event's message is the "Unknown event"
sentinel and the second event's message is "Waiting"; the task's last
message is "Waiting". -/
theorem C2_last_meaningful_witness : (buildTask evNote [evStop]).last_message = "Waiting" :=
  C2_last_meaningful evNote [evStop] "Waiting" (by decide)

/-- C5: `has_started` holds exactly when the task has more than one event or
its single event is not a session start: a task built from one event has
started iff that event is not `SessionStart`, applying any second event to a
task makes it started regardless of the event's kind, and in general
`has_started` is equivalent to the stated disjunction. -/
theorem C5_has_started :
    (∀ e : TaskEvent, (ClaudeTask.new e).has_started = true ↔ e.event ≠ "SessionStart")
  ∧ (∀ (e x : TaskEvent) (es : List TaskEvent), ((buildTask e es).add_event x).has_started = true)
  ∧ (∀ t : ClaudeTask, t.has_started = true ↔
       (t.events.length > 1 ∨ ∃ e, t.events.head? = some e ∧ e.event ≠ "SessionStart")) := by
  refine ⟨?_, ?_, ?_⟩
  · intro e
    simp [ClaudeTask.new, ClaudeTask.has_started]
  · intro e x es
    have hev : ((buildTask e es).add_event x).events = (e :: es) ++ [x] := by
      simp [ClaudeTask.add_event, buildTask_events]
    simp only [ClaudeTask.has_started, hev, Bool.or_eq_true, decide_eq_true_iff]
    left
    simp
  · intro t
    cases hev : t.events with
    | nil => simp [ClaudeTask.has_started, hev]
    | cons e rest =>
        simp only [ClaudeTask.has_started, hev, List.head?_cons, Bool.or_eq_true,
          decide_eq_true_iff, List.length_cons]
        constructor
        · rintro (h | h)
          · exact Or.inl h
          · exact Or.inr ⟨e, rfl, h⟩
        · rintro (h | ⟨e', he', hne⟩)
          · exact Or.inl h
          · cases Option.some.injEq .. ▸ he' with
            | refl => exact Or.inr hne

/-- Witness for C5: a task built from one `Stop` event has started. -/
theorem C5_has_started_witness : (ClaudeTask.new evStop).has_started = true :=
  (C5_has_started.1 evStop).mpr (by decide)

theorem tasks_load_session_file (m : TaskManager) (lines : List LogLine) :
    (m.load_session_file lines).1 = (eventsOf lines).foldl TaskManager.add_event m := by
  rw [TaskManager.load_session_file, loadLines_spec]

theorem eventsNonempty_updateTask (l : List (String × ClaudeTask)) (k : String) (e : TaskEvent)
    (h : ∀ p ∈ l, p.2.events ≠ []) : ∀ p ∈ updateTask l k e, p.2.events ≠ [] := by
  intro p hp
  rcases List.mem_map.mp hp with ⟨q, hq, hfq⟩
  by_cases hqk : q.1 = k
  · rw [if_pos hqk] at hfq
    rw [← hfq]
    simp [ClaudeTask.add_event]
  · rw [if_neg hqk] at hfq
    exact hfq ▸ h q hq

theorem eventsNonempty_add_event (m : TaskManager) (e : TaskEvent)
    (h : m.eventsNonempty) : (m.add_event e).eventsNonempty := by
  unfold TaskManager.add_event
  cases alookup e.session_id m.tasks with
  | some t => exact eventsNonempty_updateTask m.tasks e.session_id e h
  | none =>
      intro p hp
      rcases List.mem_append.mp hp with h1 | h1
      · exact h p h1
      · rw [List.mem_singleton.mp h1]
        simp [ClaudeTask.new]

theorem eventsNonempty_foldl (es : List TaskEvent) (m : TaskManager)
    (h : m.eventsNonempty) : (es.foldl TaskManager.add_event m).eventsNonempty := by
  induction es generalizing m with
  | nil => exact h
  | cons e rest ih => exact ih _ (eventsNonempty_add_event m e h)

theorem eventsNonempty_refreshFile (m : TaskManager) (f : SessionFile)
    (h : m.eventsNonempty) : (m.refreshFile f).eventsNonempty := by
  unfold TaskManager.refreshFile
  cases f.mtime with
  | none => exact h
  | some c =>
      show (if m.shouldReload f then
          ({ tasks := m.reloadedTasks f,
             file_mtimes := aupdate f.stem c m.file_mtimes } : TaskManager)
        else m).eventsNonempty
      by_cases hr : m.shouldReload f
      · rw [if_pos hr]
        intro p hp
        unfold TaskManager.reloadedTasks at hp
        have herase : TaskManager.eventsNonempty { m with tasks := aerase f.stem m.tasks } :=
          fun q hq => h q (List.mem_of_mem_filter hq)
        rcases hcontent : f.content with _ | ls
        · simp only [hcontent] at hp
          exact herase p hp
        · simp only [hcontent] at hp
          rw [tasks_load_session_file] at hp
          exact eventsNonempty_foldl (eventsOf ls) _ herase p hp
      · rw [if_neg hr]
        exact h

theorem eventsNonempty_refresh (files : List SessionFile) (m : TaskManager)
    (h : m.eventsNonempty) : (m.refresh files).eventsNonempty := by
  induction files generalizing m with
  | nil => exact h
  | cons f rest ih => exact ih _ (eventsNonempty_refreshFile m f h)

/-- C7: Decode failures are local to their line.  `load_session_file` always
succeeds once the file was read, ingests exactly the lines that decode, in
order, and counts the failures; concretely, the five-line file whose lines 2
and 4 are invalid yields success, a task with exactly the events of lines 1,
3 and 5, and two counted errors. -/
theorem C7_line_tolerance :
    (∀ (m : TaskManager) (lines : List LogLine),
        readAndLoad m (some lines) =
          Except.ok ((eventsOf lines).foldl TaskManager.add_event m,
                     (eventsOf lines).length, countInvalid lines))
  ∧ (readAndLoad TaskManager.mkEmpty (some fiveLines)).isOk = true
  ∧ (alookup "test" ((TaskManager.mkEmpty.load_session_file fiveLines).1).tasks).map
      ClaudeTask.events = some [f5e1, f5e3, f5e5]
  ∧ (TaskManager.mkEmpty.load_session_file fiveLines).2.2 = 2 := by
  refine ⟨?_, by decide, by decide, by decide⟩
  intro m lines
  rw [readAndLoad, TaskManager.load_session_file, loadLines_spec]
  simp

/-- C9: Every task the manager holds has a non-empty event list: the empty
manager satisfies the invariant and every operation (routing an event,
loading a file's lines, refreshing any list of files) preserves it; a task
is created holding its first event, and applying an event appends it,
removing nothing. -/
theorem C9_events_nonempty :
    TaskManager.mkEmpty.eventsNonempty
  ∧ (∀ (m : TaskManager) (e : TaskEvent), m.eventsNonempty → (m.add_event e).eventsNonempty)
  ∧ (∀ (m : TaskManager) (lines : List LogLine), m.eventsNonempty →
        ((m.load_session_file lines).1).eventsNonempty)
  ∧ (∀ (m : TaskManager) (files : List SessionFile), m.eventsNonempty →
        (m.refresh files).eventsNonempty)
  ∧ (∀ e : TaskEvent, (ClaudeTask.new e).events = [e])
  ∧ (∀ (t : ClaudeTask) (e : TaskEvent), (t.add_event e).events = t.events ++ [e]) := by
  refine ⟨?_, eventsNonempty_add_event, ?_, ?_, fun e => rfl, fun t e => rfl⟩
  · intro p hp
    simp [TaskManager.mkEmpty] at hp
  · intro m lines h
    rw [tasks_load_session_file]
    exact eventsNonempty_foldl (eventsOf lines) m h
  · intro m files h
    exact eventsNonempty_refresh files m h

/-- Witness for C9: the invariant holds after routing a concrete event into
the empty manager. -/
theorem C9_events_nonempty_witness :
    (TaskManager.mkEmpty.add_event evStart).eventsNonempty :=
  C9_events_nonempty.2.1 TaskManager.mkEmpty evStart C9_events_nonempty.1

/-- C3 counterexample: the very first refresh pass decides to read the file
(`shouldReload` is true), the read fails (`content = none`), and the next
pass does not attempt the file again — `shouldReload` on the unchanged file
is now false, because the mtime was cached despite the failure. -/
theorem C3_counterexample :
    TaskManager.mkEmpty.shouldReload f3fail = true
    ∧ f3fail.content = none
    ∧ (TaskManager.mkEmpty.refreshFile f3fail).shouldReload f3fail = false := by
  decide

/-- C3 amended: when reading a session file fails during a refresh pass, the
cached modification time is nonetheless updated to the file's current value,
so the next pass skips the file; it is re-attempted only once the file's
modification time becomes strictly greater than the cached one. -/
theorem C3_failed_read_not_retried (m : TaskManager) (f : SessionFile) (c : Nat)
    (hm : f.mtime = some c) (hr : m.shouldReload f = true) (hc : f.content = none) :
    alookup f.stem (m.refreshFile f).file_mtimes = some c
    ∧ (m.refreshFile f).shouldReload f = false
    ∧ (∀ (f' : SessionFile) (c' : Nat), f'.stem = f.stem → f'.mtime = some c' →
        ((m.refreshFile f).shouldReload f' = true ↔ c < c')) := by
  have hres : m.refreshFile f =
      { tasks := aerase f.stem m.tasks, file_mtimes := aupdate f.stem c m.file_mtimes } := by
    simp [TaskManager.refreshFile, TaskManager.reloadedTasks, hm, hc, hr]
  refine ⟨?_, ?_, ?_⟩
  · rw [hres]
    exact alookup_aupdate_self _ _ _
  · rw [hres]
    simp [TaskManager.shouldReload, hm, alookup_aupdate_self]
  · intro f' c' hst hm'
    rw [hres]
    simp [TaskManager.shouldReload, hm', hst, alookup_aupdate_self]

/-- Witness for the amended C3 at the concrete failing file: the failed
read's mtime 5 is cached anyway. -/
theorem C3_failed_read_not_retried_witness :
    alookup "s" (TaskManager.mkEmpty.refreshFile f3fail).file_mtimes = some 5 :=
  (C3_failed_read_not_retried TaskManager.mkEmpty f3fail 5 rfl (by decide) rfl).1

/-- C4 counterexample: a file whose current mtime 3 differs from the cached
value 5 but is not greater is skipped entirely — the claim's "re-ingested
exactly when the modification time differs" fails. -/
theorem C4_counterexample :
    staleFile.mtime = some 3
    ∧ alookup "s" cmStale.file_mtimes = some 5
    ∧ (3 : Nat) ≠ 5
    ∧ cmStale.shouldReload staleFile = false
    ∧ cmStale.refreshFile staleFile = cmStale := by
  decide

/-- C4 amended: a file is re-ingested exactly when its current modification
time is strictly greater than the cached value (an absent cache entry counts
as changed); when re-ingested, the task keyed by the file's stem is
discarded entirely and rebuilt from only the file's own events for that
session, and the cached mtime is updated; files that do not compare strictly
newer are skipped with the manager unchanged. -/
theorem C4_refresh_reload_rule (m : TaskManager) (f : SessionFile) (c : Nat)
    (hm : f.mtime = some c) :
    (alookup f.stem m.file_mtimes = none → m.shouldReload f = true)
  ∧ (∀ last, alookup f.stem m.file_mtimes = some last →
        (m.shouldReload f = true ↔ last < c))
  ∧ (m.shouldReload f = false → m.refreshFile f = m)
  ∧ (m.shouldReload f = true →
        alookup f.stem (m.refreshFile f).file_mtimes = some c
      ∧ ∀ ls, f.content = some ls →
          alookup f.stem (m.refreshFile f).tasks =
            ((eventsOf ls).filter (fun e => decide (e.session_id = f.stem))).foldl
              applyEvent none) := by
  refine ⟨?_, ?_, ?_, ?_⟩
  · intro h
    simp [TaskManager.shouldReload, hm, h]
  · intro last h
    simp [TaskManager.shouldReload, hm, h]
  · intro h
    simp [TaskManager.refreshFile, hm, h]
  · intro h
    constructor
    · simp only [TaskManager.refreshFile, hm, h, if_true]
      exact alookup_aupdate_self _ _ _
    · intro ls hls
      simp only [TaskManager.refreshFile, hm, h, if_true, TaskManager.reloadedTasks, hls]
      rw [tasks_load_session_file, alookup_foldl_add_event]
      rw [show alookup f.stem ({ m with tasks := aerase f.stem m.tasks } : TaskManager).tasks
            = none from alookup_aerase_self f.stem m.tasks]

/-- Witness for the amended C4: an uncached file with a readable mtime is
reloaded. -/
theorem C4_refresh_reload_rule_witness :
    TaskManager.mkEmpty.shouldReload f3fail = true :=
  (C4_refresh_reload_rule TaskManager.mkEmpty f3fail 5 rfl).1 rfl

/-- C10: Refreshing a changed file discards only the task keyed by the
file's stem; any event in the file whose embedded session id is a different
existing key is appended to that session's already-present task, duplicating
its history rather than replacing it. -/
theorem C10_refresh_other_sessions (m : TaskManager) (f : SessionFile) (ls : List LogLine)
    (k : String) (t : ClaudeTask) (c : Nat)
    (hm : f.mtime = some c) (hr : m.shouldReload f = true) (hc : f.content = some ls)
    (hk : k ≠ f.stem) (ht : alookup k m.tasks = some t) :
    alookup k (m.refreshFile f).tasks =
      some (((eventsOf ls).filter (fun e => decide (e.session_id = k))).foldl
        ClaudeTask.add_event t)
  ∧ (((eventsOf ls).filter (fun e => decide (e.session_id = k))).foldl
        ClaudeTask.add_event t).events
      = t.events ++ (eventsOf ls).filter (fun e => decide (e.session_id = k)) := by
  constructor
  · simp only [TaskManager.refreshFile, hm, hr, if_true, TaskManager.reloadedTasks, hc]
    rw [tasks_load_session_file, alookup_foldl_add_event]
    rw [show alookup k ({ m with tasks := aerase f.stem m.tasks } : TaskManager).tasks
          = some t from (alookup_aerase_ne f.stem k m.tasks hk).trans ht]
    exact foldl_applyEvent_some t _
  · exact events_foldl_add_event t _

/-- Witness for C10: refreshing the changed file `other.jsonl`, whose single
event belongs to session `s1`, appends that event to the existing `s1`
task. -/
theorem C10_refresh_other_sessions_witness :
    alookup "s1" (cmOther.refreshFile fOther).tasks =
      some (((eventsOf [LogLine.valid evStop]).filter
        (fun e => decide (e.session_id = "s1"))).foldl ClaudeTask.add_event
          (ClaudeTask.new evStart)) :=
  (C10_refresh_other_sessions cmOther fOther [LogLine.valid evStop] "s1"
    (ClaudeTask.new evStart) 1 rfl (by decide) rfl (by decide) (by decide)).1

theorem zip_all_eq_take {α : Type} [DecidableEq α] (l2 l1 : List α) (h : l2.length ≤ l1.length) :
    (((l1.zip l2).all fun p => decide (p.1 = p.2)) = true) ↔ l1.take l2.length = l2 := by
  induction l2 generalizing l1 with
  | nil => simp
  | cons b bs ih =>
      cases l1 with
      | nil => simp at h
      | cons a as =>
          have h' : bs.length ≤ as.length := Nat.le_of_succ_le_succ (by simpa using h)
          simp only [List.zip_cons_cons, List.all_cons, Bool.and_eq_true, decide_eq_true_iff,
            List.length_cons, List.take_succ_cons, List.cons.injEq]
          rw [ih as h']

/-- C6: The canonicalization-unavailable fallback of location matching
succeeds exactly when the task's path has at least as many components as the
candidate location and its leading components equal the location's
components; concretely, a task in `/home/user/feature` matches
`/home/user/feature`, `/home/user` and `/home` but neither
`/home/user/feature-backup` nor `/home/user/featureX`. -/
theorem C6_location_match_fallback :
    (∀ (t : ClaudeTask) (wt : String),
        t.is_in_worktree_fallback wt = true ↔
          ((pathComponents wt).length ≤ (pathComponents t.worktree_path).length ∧
           (pathComponents t.worktree_path).take (pathComponents wt).length
             = pathComponents wt))
  ∧ featureTask.is_in_worktree_fallback "/home/user/feature" = true
  ∧ featureTask.is_in_worktree_fallback "/home/user" = true
  ∧ featureTask.is_in_worktree_fallback "/home" = true
  ∧ featureTask.is_in_worktree_fallback "/home/user/feature-backup" = false
  ∧ featureTask.is_in_worktree_fallback "/home/user/featureX" = false := by
  refine ⟨?_, by decide, by decide, by decide, by decide, by decide⟩
  intro t wt
  unfold ClaudeTask.is_in_worktree_fallback
  by_cases hlen : (pathComponents wt).length ≤ (pathComponents t.worktree_path).length
  · rw [if_pos hlen, zip_all_eq_take _ _ hlen]
    simp [hlen]
  · rw [if_neg hlen]
    simp [hlen]

/-- Witness for C6: the parent directory `/home/user` matches by the
component rule. -/
theorem C6_location_match_fallback_witness :
    featureTask.is_in_worktree_fallback "/home/user" = true :=
  (C6_location_match_fallback.1 featureTask "/home/user").mpr (by decide)

/-- C8 counterexample: two managers with the same session-to-task mapping
(the task lists are permutations with identical per-key lookups and
identical mtime caches) but different hash-map iteration orders return two
tasks tied on last-update in different orders. -/
theorem C8_counterexample :
    cmLeft.tasks.Perm cmRight.tasks
    ∧ cmLeft.file_mtimes = cmRight.file_mtimes
    ∧ alookup "a" cmLeft.tasks = alookup "a" cmRight.tasks
    ∧ alookup "b" cmLeft.tasks = alookup "b" cmRight.tasks
    ∧ (ClaudeTask.new evA).last_update = (ClaudeTask.new evB).last_update
    ∧ cmLeft.all_tasks ≠ cmRight.all_tasks := by
  refine ⟨by decide, rfl, by decide, by decide, rfl, by decide⟩

/-- C8 amended: `all_tasks` returns every task (a permutation of the task
values) sorted by last-update descending, and is a deterministic function of
the manager's iteration order; determinism across managers holding merely
equal aggregated state fails for tied last-updates (see the
counterexample), since tie order follows the hash map's iteration order. -/
theorem C8_all_tasks_order :
    (∀ m : TaskManager, m.all_tasks.Perm (m.tasks.map Prod.snd))
  ∧ (∀ m : TaskManager, m.all_tasks.Pairwise lastUpdateGe)
  ∧ (∀ m1 m2 : TaskManager, m1.tasks = m2.tasks → m1.all_tasks = m2.all_tasks) := by
  refine ⟨?_, ?_, ?_⟩
  · intro m
    exact List.perm_insertionSort _ _
  · intro m
    exact List.sorted_insertionSort lastUpdateGe _
  · intro m1 m2 h
    unfold TaskManager.all_tasks
    rw [h]

/-- Witness for the amended C8: two managers with identical task lists (but
different mtime caches) return the same ordering. -/
theorem C8_all_tasks_order_witness : cmLeft.all_tasks = cmLeftMt.all_tasks :=
  C8_all_tasks_order.2.2 cmLeft cmLeftMt rfl

end WtEnv
